import Mathlib

/-!
Verification of the context-extraction and adaptive-retrieval core of the
`Debug_Moi_Ca` repository (files `utils.py` and `main.py`).

The development shallowly embeds, in Lean:

* the directory walker `ProjectContextExtractor.get_folder_structure_and_content`
  together with `build_context` and `build_targeted_context` (utils.py);
* the byte-size humanizer `human_readable_size` (utils.py);
* the escalation state machine of `HolaIbotApp` (`ask_gpt`,
  `execute_smart_query_step`, `run_mini_filter`, `on_filter_response`,
  `send_to_worker`, `on_gpt_response` in main.py).

Modelling conventions, used throughout:

* A directory tree is a value of the mutual inductive `FSNode`/`FSList`.
  The children of a directory are stored in the order that
  `sorted(os.listdir(...))` returns them, and `os.walk` enumeration is
  modelled in that same stored order (no claim below concerns the relative
  order of two siblings, only which entries appear and in what structural
  positions).
* Machine integers do not occur: all Python ints here are mathematical.
* The per-format readers dispatched by `extract_file_content`
  (plain text, xlsx/xls, ipynb, docx, pdf, binary fallback) read file bytes
  that a pure tree value cannot contain; each file node therefore carries,
  as an oracle, the text `body` and statistics dictionary `fstats` that
  `extract_file_content` would return for it.  The walker itself
  (size guard, placeholder emission, statistics accumulation) is translated
  literally.  The indentation prefix that `extract_file_content` embeds in
  its returned text varies with its `indent_level` argument; no claim
  compares that text across two different indent levels, so the oracle
  ignores the indent argument.
* Python `str.lower()` is modelled character-wise by `Char.toLower`
  (exact on ASCII, which covers every extension and exclusion literal in
  the source).
* File and directory names are assumed not to contain the path separator
  `/` (true of any real directory listing), so `os.path.splitext` applied
  to a joined path equals it applied to the final component.
-/

/-! ## Statistics dictionaries -/
/-- Image of the four-key statistics dictionary
`{'words': _, 'lines': _, 'characters': _, 'tokens': _}` returned by
`extract_file_content` (utils.py line 365). -/
structure Stats4 where
  words : Nat
  lines : Nat
  characters : Nat
  tokens : Nat
deriving DecidableEq, Repr

/-- Image of the five-key running-total dictionary
`{'words': _, 'lines': _, 'characters': _, 'tokens': _, 'size': _}` used by
the walker (utils.py line 306). -/
structure Stats where
  words : Nat
  lines : Nat
  characters : Nat
  tokens : Nat
  size : Nat
deriving DecidableEq, Repr

/-- The freshly initialised running total (all keys zero). -/
def Stats.zero : Stats := ⟨0, 0, 0, 0, 0⟩

/-- Pointwise sum of two five-key dictionaries: the loop
`for key in stats: stats[key] += sub_stats[key]` (utils.py lines 329-330). -/
def Stats.add (a b : Stats) : Stats :=
  ⟨a.words + b.words, a.lines + b.lines, a.characters + b.characters,
   a.tokens + b.tokens, a.size + b.size⟩

/-- Merging a file's `extract_file_content` statistics into the running
total: `for key in stats: if key in file_stats: stats[key] += file_stats[key]`
(utils.py lines 353-355).  The file dictionary has no `size` key, so the
`size` entry of the total is unchanged. -/
def Stats.add4 (a : Stats) (b : Stats4) : Stats :=
  ⟨a.words + b.words, a.lines + b.lines, a.characters + b.characters,
   a.tokens + b.tokens, a.size⟩

/-! ## Directory trees -/
mutual
/-- A single directory entry: either a regular file (with its name, its byte
size as reported by `os.path.getsize`, and the oracle text/statistics that
`extract_file_content` would produce for it) or a subdirectory. -/
inductive FSNode where
  | file (name : String) (size : Nat) (body : String) (fstats : Stats4)
  | dir (name : String) (children : FSList)

/-- A directory listing, in `sorted(os.listdir(...))` order. -/
inductive FSList where
  | nil
  | cons (head : FSNode) (tail : FSList)
end

/-- Name of an entry, the `item` of the walker loop. -/
def FSNode.name : FSNode → String
  | .file n _ _ _ => n
  | .dir n _ => n

/-! ## Name-level helpers: `splitext`, `lower`, indentation -/
/-- Python `str.lower()`, character-wise (exact on ASCII). -/
def pyLower (s : String) : String :=
  String.mk (s.data.map Char.toLower)

/-- Splits a character list at its last `.`: returns
`some (before, dotAndAfter)` when a dot occurs, `none` otherwise. -/
def splitExtAux : List Char → Option (List Char × List Char)
  | [] => none
  | c :: cs =>
    match splitExtAux cs with
    | some (pre, ext) => some (c :: pre, ext)
    | none => if c = '.' then some ([], c :: cs) else none

/-- Extension part of `os.path.splitext(name)` for a separator-free `name`:
the substring starting at the last dot, except that a name whose characters
before that dot are all dots (for example `.gitignore` or `..foo`) has no
extension, exactly as in CPython's `posixpath.splitext`. -/
def splitextExt (name : String) : String :=
  match splitExtAux name.data with
  | none => ""
  | some (pre, ext) => if pre.all (fun c => c = '.') then "" else String.mk ext

/-- The membership key the walker tests against the allowlist:
`ext = os.path.splitext(item_path)[1].lower()` (utils.py line 333). -/
def extKey (name : String) : String := pyLower (splitextExt name)

/-- The indentation `'    ' * indent_level`. -/
def indentStr : Nat → String
  | 0 => ""
  | n + 1 => "    " ++ indentStr n

/-! ## Extractor configuration -/
/-- The exclusion and allowlist state of a `ProjectContextExtractor`
(`self.exclusions` and `self.extensions`).  The Python values are sets of
strings; lists with membership model them. -/
structure ExtractorConfig where
  exclusions : List String
  extensions : List String

/-- The class constant `DEFAULT_EXCLUSIONS` (utils.py lines 179-185). -/
def DEFAULT_EXCLUSIONS : List String :=
  ["venv", "MyVenv", ".venv", "env", "log", "logs", ".env", "node_modules",
   ".git", "__pycache__", ".mypy_cache", ".pytest_cache", ".idea", ".vscode",
   ".DS_Store", ".cache", ".ipynb_checkpoints", ".history", ".svn", ".hg",
   ".tox", ".coverage", ".gitignore", ".gitattributes", ".yarn",
   ".parcel-cache", ".next", ".nuxt", ".node_modules", ".dist"]

/-- The allowlist installed by `__init__` (utils.py lines 190-199). -/
def defaultExtensions : List String :=
  [".py", ".pyw", ".ipynb", ".txt", ".pdf", ".docx", ".xlsx", ".xls",
   ".js", ".jsx", ".ts", ".tsx", ".vue", ".html", ".css",
   ".c", ".h", ".hpp", ".hh", ".cc", ".cpp", ".cxx", ".c++",
   ".sh", ".bash", ".zsh", ".ksh", ".bat", ".cmd", ".make", ".mk", "Makefile",
   ".java", ".go", ".rs", ".swift", ".php", ".rb", ".pl", ".pm",
   ".scala", ".kt", ".kts", ".lua", ".sql",
   ".xml", ".yml", ".yaml", ".json", ".md", ".csv", ".ini", ".cfg", ".conf",
   ".toml", ".ps1", ".psm1", ".psd1", ".cmake", "CMakeLists.txt",
   "Dockerfile", "dockerfile", "Vagrantfile", "Procfile"]

/-- The effective exclusion set used by `build_context` and
`build_targeted_context`: `self.exclusions = self.DEFAULT_EXCLUSIONS.union(self.exclusions)`
(utils.py lines 228 and 255), where `self.exclusions` already holds the
user-supplied additions. -/
def effectiveExclusions (userAdditions : List String) : List String :=
  DEFAULT_EXCLUSIONS ++ userAdditions

/-! ## The recursive walker: `get_folder_structure_and_content` -/
/-- The literal placeholder for files over the 100 KiB ceiling. -/
def tooLargeMarker : String := "[File too large to display]"

mutual
/-- Body of one iteration of the walker loop (utils.py lines 317-357), for an
`item` that already passed the exclusion test.  `path` is `folder_path`, so
`item_path = path ++ "/" ++ item.name`.  Returns the
`(structure_output, content_output, stats)` contribution of this item. -/
def walkNode (cfg : ExtractorConfig) (path : String) (indentLevel : Nat)
    (extractContent : Bool) : FSNode → List String × List String × Stats
  | .dir name children =>
    let itemPath := path ++ "/" ++ name
    let sub := walkList cfg itemPath (indentLevel + 1) extractContent children
    ((indentStr indentLevel ++ name ++ "/") :: sub.1, sub.2.1, sub.2.2)
  | .file name size body _fstats =>
    let itemPath := path ++ "/" ++ name
    if extKey name ∈ cfg.extensions then
      let structLine := indentStr indentLevel ++ name
      if extractContent then
        let header := "\n" ++ indentStr indentLevel ++ "File: " ++ itemPath
        if size > 100 * 1024 then
          ([structLine], [header, indentStr indentLevel ++ tooLargeMarker],
           { Stats.zero with size := size })
        else
          ([structLine], [header, body],
           ⟨_fstats.words, _fstats.lines, _fstats.characters, _fstats.tokens, size⟩)
      else
        ([structLine], [], Stats.zero)
    else
      ([], [], Stats.zero)

/-- The walker loop `for item in items:` (utils.py lines 313-357): entries
whose name is in `self.exclusions` are skipped, the contributions of the
remaining entries are appended in order and their statistics summed. -/
def walkList (cfg : ExtractorConfig) (path : String) (indentLevel : Nat)
    (extractContent : Bool) : FSList → List String × List String × Stats
  | .nil => ([], [], Stats.zero)
  | .cons n tl =>
    let rest := walkList cfg path indentLevel extractContent tl
    if n.name ∈ cfg.exclusions then rest
    else
      let this := walkNode cfg path indentLevel extractContent n
      (this.1 ++ rest.1, this.2.1 ++ rest.2.1, this.2.2.add rest.2.2)
end

/-- The walker `get_folder_structure_and_content(folder_path, 0, extract_content)`
applied to the (already listed) children of the root folder. -/
def getFolderStructureAndContent (cfg : ExtractorConfig) (folderPath : String)
    (children : FSList) (extractContent : Bool) :
    List String × List String × Stats :=
  walkList cfg folderPath 0 extractContent children

/-! ## Instrumented projections of the same loop

Each of the following definitions repeats the recursion of
`walkNode`/`walkList` verbatim but collects, instead of formatted strings,
the entries the loop touches: the entries a structure line is emitted for,
the files a content block is emitted for, and the directories the walker
recurses into.  Bridge lemmas below prove that the real outputs are exactly
the rendered images of these lists. -/
/-- One structure line, before formatting. -/
structure StructEntry where
  indent : Nat
  name : String
  isDir : Bool
deriving DecidableEq, Repr

/-- Formats a `StructEntry` the way the walker does (utils.py lines 321
and 337). -/
def renderEntry (e : StructEntry) : String :=
  indentStr e.indent ++ e.name ++ (if e.isDir then "/" else "")

/-- One content block, before formatting. -/
structure FileCtx where
  itemPath : String
  indent : Nat
  name : String
  size : Nat
  body : String
  fstats : Stats4
deriving DecidableEq, Repr

/-- Formats a `FileCtx` the way the walker does (utils.py lines 342-352):
the `File:` header followed by either the too-large placeholder or the
extracted body. -/
def renderBlock (f : FileCtx) : List String :=
  ["\n" ++ indentStr f.indent ++ "File: " ++ f.itemPath,
   if f.size > 100 * 1024 then indentStr f.indent ++ tooLargeMarker else f.body]

mutual
/-- The structure entries `walkNode` emits. -/
def structEntriesN (cfg : ExtractorConfig) (indentLevel : Nat) :
    FSNode → List StructEntry
  | .dir name children =>
    ⟨indentLevel, name, true⟩ :: structEntriesL cfg (indentLevel + 1) children
  | .file name _ _ _ =>
    if extKey name ∈ cfg.extensions then [⟨indentLevel, name, false⟩] else []

/-- The structure entries the walker loop emits. -/
def structEntriesL (cfg : ExtractorConfig) (indentLevel : Nat) :
    FSList → List StructEntry
  | .nil => []
  | .cons n tl =>
    if n.name ∈ cfg.exclusions then structEntriesL cfg indentLevel tl
    else structEntriesN cfg indentLevel n ++ structEntriesL cfg indentLevel tl
end

mutual
/-- The files `walkNode` emits a content block for (when content extraction
is on). -/
def contentFilesN (cfg : ExtractorConfig) (path : String) (indentLevel : Nat) :
    FSNode → List FileCtx
  | .dir name children =>
    contentFilesL cfg (path ++ "/" ++ name) (indentLevel + 1) children
  | .file name size body fstats =>
    if extKey name ∈ cfg.extensions then
      [⟨path ++ "/" ++ name, indentLevel, name, size, body, fstats⟩]
    else []

/-- The files the walker loop emits a content block for. -/
def contentFilesL (cfg : ExtractorConfig) (path : String) (indentLevel : Nat) :
    FSList → List FileCtx
  | .nil => []
  | .cons n tl =>
    if n.name ∈ cfg.exclusions then contentFilesL cfg path indentLevel tl
    else contentFilesN cfg path indentLevel n ++ contentFilesL cfg path indentLevel tl
end

mutual
/-- The names of the directories `walkNode` recurses into, anywhere in the
subtree rooted at this entry. -/
def descendedDirsN (cfg : ExtractorConfig) : FSNode → List String
  | .dir name children => name :: descendedDirsL cfg children
  | .file _ _ _ _ => []

/-- The names of the directories the walker loop recurses into. -/
def descendedDirsL (cfg : ExtractorConfig) : FSList → List String
  | .nil => []
  | .cons n tl =>
    if n.name ∈ cfg.exclusions then descendedDirsL cfg tl
    else descendedDirsN cfg n ++ descendedDirsL cfg tl
end

/-- A small concrete project tree used by witnesses: a listed source file, an
excluded `.git` directory (with a file inside that must never surface), an
excluded user-named directory, and an ordinary subdirectory. -/
def sampleTree : FSList :=
  .cons (.file "a.py" 10 "Content:\nprint(1)" ⟨2, 1, 8, 2⟩)
    (.cons (.dir ".git" (.cons (.file "cfg.py" 5 "x" ⟨1, 0, 1, 1⟩) .nil))
      (.cons (.dir "secret" (.cons (.file "k.py" 5 "y" ⟨1, 0, 1, 1⟩) .nil))
        (.cons (.dir "src" (.cons (.file "m.js" 7 "let x" ⟨2, 0, 5, 2⟩) .nil))
          .nil)))

/-! ## Byte-size humanization: `human_readable_size`

The Python function receives a float.  Every value it is applied to in the
source is an integer byte total, and every division it performs is by 1024,
which is exact in binary floating point for totals below 2^53; the modelling
therefore uses exact rationals.  Python's `%.1f` formatting performs correct
rounding (ties to even) of the exact value. -/
/-- Correctly rounds `q * 10` to an integer, ties to even; used for the
one-decimal formatting below (intended for `q ≥ 0`). -/
def roundHalfEvenTenths (q : ℚ) : ℤ :=
  if q * 10 - ⌊q * 10⌋ < 1 / 2 then ⌊q * 10⌋
  else if 1 / 2 < q * 10 - ⌊q * 10⌋ then ⌊q * 10⌋ + 1
  else if ⌊q * 10⌋ % 2 = 0 then ⌊q * 10⌋ else ⌊q * 10⌋ + 1

/-- Python `f"{q:.1f}"` for nonnegative `q`. -/
def formatFixed1 (q : ℚ) : String :=
  let m : Nat := (roundHalfEvenTenths q).toNat
  toString (m / 10) ++ "." ++ toString (m % 10)

/-- Python `f"{q:3.1f}"` for nonnegative `q`: one decimal place, padded with
spaces to a minimum width of three (never triggered for a nonnegative value,
whose shortest rendering `d.d` already has width three). -/
def formatF31 (q : ℚ) : String :=
  let s := formatFixed1 q
  if s.length < 3 then String.mk (List.replicate (3 - s.length) ' ') ++ s else s

/-- The loop of `human_readable_size` (utils.py lines 166-170): try each unit
in turn, dividing by 1024, and fall through to petabytes. -/
def hrsLoop : ℚ → List String → String
  | num, [] => formatFixed1 num ++ " PB"
  | num, u :: us => if num < 1024 then formatF31 num ++ " " ++ u else hrsLoop (num / 1024) us

/-- The humanizer `human_readable_size` (utils.py lines 164-170). -/
def human_readable_size (num : ℚ) : String :=
  hrsLoop num ["B", "KB", "MB", "GB", "TB"]

/-! ## Path normalization: `os.path.normpath` (POSIX) -/
/-- Python `p.split('/')`: splits at every slash, keeping empty pieces. -/
def splitSlashAux : List Char → List Char → List String
  | [], cur => [String.mk cur.reverse]
  | c :: rest, cur =>
    if c = '/' then String.mk cur.reverse :: splitSlashAux rest []
    else splitSlashAux rest (c :: cur)

/-- Python `p.split('/')`. -/
def splitSlash (p : String) : List String := splitSlashAux p.data []

/-- Python `'/'.join(comps)`. -/
def joinSlash : List String → String
  | [] => ""
  | [x] => x
  | x :: xs => x ++ "/" ++ joinSlash xs

/-- CPython `posixpath.normpath`, translated clause by clause: empty path
becomes `.`; one or two leading slashes are preserved (three or more
collapse to one); empty and `.` components vanish; `..` cancels a previous
real component. -/
def normpathP (p : String) : String :=
  if p = "" then "."
  else
    let startsOne : Bool := match p.data with
      | '/' :: _ => true
      | _ => false
    let startsTwo : Bool := match p.data with
      | '/' :: '/' :: _ => true
      | _ => false
    let startsThree : Bool := match p.data with
      | '/' :: '/' :: '/' :: _ => true
      | _ => false
    let initialSlashes : Nat :=
      if startsOne then (if startsTwo && !startsThree then 2 else 1) else 0
    let newComps := (splitSlash p).foldl
      (fun acc comp =>
        if comp = "" ∨ comp = "." then acc
        else if comp ≠ ".." ∨ (initialSlashes = 0 ∧ acc = []) ∨
                (acc ≠ [] ∧ acc.getLast? = some "..") then acc ++ [comp]
        else if acc ≠ [] then acc.dropLast
        else acc) []
    let joined := String.mk (List.replicate initialSlashes '/') ++
      joinSlash newComps
    if joined = "" then "." else joined

/-! ## Targeted extraction: `build_targeted_context` -/
/-- The normalized lower-cased target list
`clean_targets = [os.path.normpath(f).lower() for f in target_files]`
(utils.py line 265). -/
def cleanTargets (targetFiles : List String) : List String :=
  targetFiles.map (fun f => pyLower (normpathP f))

/-- The match test of utils.py lines 279-280:
`os.path.normpath(rel_path).lower() in clean_targets or file.lower() in clean_targets`. -/
def matchesTarget (cts : List String) (rel name : String) : Bool :=
  decide (pyLower (normpathP rel) ∈ cts) || decide (pyLower name ∈ cts)

/-- Relative path of an entry under the walk: `os.path.relpath(os.path.join(root,
file), folder_path)`, which is the slash-joined component path. -/
def relJoin (pre name : String) : String :=
  if pre = "" then name else pre ++ "/" ++ name

/-- Content lines contributed by the files of one directory in the
`os.walk` loop of `build_targeted_context` (utils.py lines 271-284): excluded
file names are skipped, matched files contribute their `File:` header and
their `extract_file_content` text, with no size ceiling. -/
def twalkFiles (cfg : ExtractorConfig) (cts : List String) (pre : String) :
    FSList → List String
  | .nil => []
  | .cons (.dir _ _) tl => twalkFiles cfg cts pre tl
  | .cons (.file n _ b _) tl =>
    (if n ∈ cfg.exclusions then []
     else if matchesTarget cts (relJoin pre n) n then
       ["\nFile: " ++ relJoin pre n, b]
     else []) ++ twalkFiles cfg cts pre tl

/-- Content lines contributed by the recursive descent of the `os.walk` loop:
`dirs[:] = [d for d in dirs if d not in self.exclusions]` (utils.py line 269)
prunes excluded directories before descending. -/
def twalkDirs (cfg : ExtractorConfig) (cts : List String) (pre : String) :
    FSList → List String
  | .nil => []
  | .cons (.file _ _ _ _) tl => twalkDirs cfg cts pre tl
  | .cons (.dir n ch) tl =>
    (if n ∈ cfg.exclusions then []
     else twalkFiles cfg cts (relJoin pre n) ch ++ twalkDirs cfg cts (relJoin pre n) ch)
    ++ twalkDirs cfg cts pre tl

/-- The whole `content_output` of `build_targeted_context`: `os.walk` yields
the root's files first, then each surviving subdirectory top-down. -/
def targetedContentOutput (cfg : ExtractorConfig) (cts : List String)
    (ns : FSList) : List String :=
  twalkFiles cfg cts "" ns ++ twalkDirs cfg cts "" ns

/-- A file as seen by the second (targeted) walk: its exclusion-filtered
relative path, bare name, byte size, and `extract_file_content` oracle. -/
structure TFile where
  rel : String
  name : String
  size : Nat
  body : String
  fstats : Stats4
deriving DecidableEq, Repr

/-- Instrumentation: every non-excluded file the `os.walk` loop of
`build_targeted_context` iterates over in one directory, before target
matching. -/
def allFilesHere (cfg : ExtractorConfig) (pre : String) : FSList → List TFile
  | .nil => []
  | .cons (.dir _ _) tl => allFilesHere cfg pre tl
  | .cons (.file n sz b st) tl =>
    (if n ∈ cfg.exclusions then [] else [⟨relJoin pre n, n, sz, b, st⟩])
    ++ allFilesHere cfg pre tl

/-- Instrumentation: every non-excluded file reached by the recursive descent
of that loop. -/
def allFilesDirs (cfg : ExtractorConfig) (pre : String) : FSList → List TFile
  | .nil => []
  | .cons (.file _ _ _ _) tl => allFilesDirs cfg pre tl
  | .cons (.dir n ch) tl =>
    (if n ∈ cfg.exclusions then []
     else allFilesHere cfg (relJoin pre n) ch ++ allFilesDirs cfg (relJoin pre n) ch)
    ++ allFilesDirs cfg pre tl

/-- Every non-excluded file the targeted walk iterates over, in walk order. -/
def walkAllFiles (cfg : ExtractorConfig) (ns : FSList) : List TFile :=
  allFilesHere cfg "" ns ++ allFilesDirs cfg "" ns

/-! ## The report builders -/
/-- Python `str.strip()` (whitespace at both ends). -/
def pyStrip (s : String) : String := s.trim

/-- The statistics accumulated by the targeted loop: for each matched file,
`for k in stats: if k in file_stats: stats[k] += file_stats[k]`
(utils.py lines 287-289); the `size` key of the running total is never
touched because `extract_file_content` statistics have no such key.  The
fold below runs over exactly the matched files of the walk, in walk order,
which is the order the loop visits them. -/
def targetedStats (cfg : ExtractorConfig) (cts : List String) (ns : FSList) : Stats :=
  ((walkAllFiles cfg ns).filter (fun f => matchesTarget cts f.rel f.name)).foldl
    (fun a f => a.add4 f.fstats) Stats.zero

/-- The statistics line of `build_context` (utils.py lines 243-247). -/
def statsLine (st : Stats) : String :=
  "Statistics: " ++ toString st.words ++ " words, " ++ toString st.lines ++
  " lines, " ++ toString st.characters ++ " chars, ~" ++ toString st.tokens ++
  " tokens. Size: " ++ human_readable_size (st.size : ℚ)

/-- The full report builder `build_context` (utils.py lines 217-248): unions
the exclusions with the baseline, walks the tree, and assembles the
`FOLDER STRUCTURE:` section, optionally followed by the `FILE CONTENTS:`
section and the statistics line, joined by newlines and stripped. -/
def build_context (userExclusions exts : List String) (folderPath : String)
    (children : FSList) (extractContent : Bool) : String :=
  let cfg : ExtractorConfig := ⟨effectiveExclusions userExclusions, exts⟩
  let walked := getFolderStructureAndContent cfg folderPath children extractContent
  let result := ["FOLDER STRUCTURE:"] ++ walked.1 ++
    (if extractContent then
      ["\n######################################\n", "FILE CONTENTS:"] ++
      walked.2.1 ++
      ["\n######################################\n", statsLine walked.2.2]
     else [])
  pyStrip (String.intercalate "\n" result)

/-- The targeted report builder `build_targeted_context` (utils.py lines
250-300): unions the exclusions with the baseline, takes the content-free
structure of the full tree, then walks again with `os.walk` collecting
content for target-matched files only, and assembles the report. -/
def build_targeted_context (userExclusions exts : List String)
    (folderPath : String) (children : FSList) (targetFiles : List String) : String :=
  let cfg : ExtractorConfig := ⟨effectiveExclusions userExclusions, exts⟩
  let struct := (getFolderStructureAndContent cfg folderPath children false).1
  let cts := cleanTargets targetFiles
  let contentOutput := targetedContentOutput cfg cts children
  let stats := targetedStats cfg cts children
  let result := ["FOLDER STRUCTURE (Full):"] ++ struct ++
    ["\n######################################\n",
     "SELECTED RELEVANT FILE CONTENTS (" ++ toString (contentOutput.length / 2) ++
       " files):"] ++
    contentOutput ++
    ["\n######################################\n",
     "Targeted Stats: ~" ++ toString stats.tokens ++ " tokens."]
  pyStrip (String.intercalate "\n" result)

/-! ## Claim C9: the allowlist is not consulted in targeted mode -/
/-- A one-file tree whose extension `.bin` is not in the default allowlist
and whose size exceeds the full-extraction ceiling. -/
def binTree : FSList :=
  .cons (.file "data.bin" 200000 "BINARY BODY" ⟨2, 0, 11, 2⟩) .nil

/-! ## The adaptive-retrieval escalation machine (main.py)

The query flow of `HolaIbotApp` is a sequence of asynchronous model calls
driven by completion callbacks: `ask_gpt` starts attempt 1,
`execute_smart_query_step` dispatches on the attempt counter,
`run_mini_filter` issues a selector ("Brain") call whose reply lands in
`on_filter_response`, `send_to_worker` issues the main ("Worker") call whose
reply lands in `on_gpt_response`, and a rate-limit marker in the main reply
increments the attempt counter and re-enters the dispatcher.

The embedding is a state machine consuming a script of responses.  A
selector reply is modelled at the `json.loads` boundary: the value
`some v` stands for a reply whose cleaned text deserializes to the JSON
value `v`, and `none` for one that raises (the `except` path).  The
surrounding cleanup (strip, fence detection, bracket span) only produces
the text handed to `json.loads` and is not itself examined by any claim. -/
/-- JSON values, the possible results of `json.loads`. -/
inductive Json where
  | null
  | jbool (b : Bool)
  | jnum (n : Int)
  | jstr (s : String)
  | jarr (xs : List Json)
  | jobj (fields : List (String × Json))

/-- Python `isinstance(x, str)`. -/
def Json.isStr : Json → Bool
  | .jstr _ => true
  | _ => false

/-- The parse portion of `on_filter_response` (main.py lines 579-589):
`relevant_files = json.loads(clean_resp)` followed by
`if not isinstance(relevant_files, list): raise ValueError`, with every
raise landing in the `except` handler (modelled as `none`).  Note the check
is only `isinstance(..., list)`: element types are not examined. -/
def parseRelevantFiles (loadResult : Option Json) : Option (List Json) :=
  match loadResult with
  | some (Json.jarr xs) => some xs
  | _ => none

/-- The list comprehension `[os.path.normpath(f).lower() for f in
target_files]` applied to the parsed reply raises `TypeError` on the first
non-string element; `some` is the all-strings outcome. -/
def asStrings : List Json → Option (List String)
  | [] => some []
  | .jstr s :: tl => (asStrings tl).map (fun ts => s :: ts)
  | _ :: _ => none

/-- Is one character list a leading piece of another? -/
def pfxEq : List Char → List Char → Bool
  | [], _ => true
  | _ :: _, [] => false
  | a :: as, b :: bs => a = b && pfxEq as bs

/-- Occurrence of `pat` inside `text` (Python `pat in text`). -/
def subIn (pat : List Char) : List Char → Bool
  | [] => pfxEq pat []
  | text@(_ :: rest) => pfxEq pat text || subIn pat rest

/-- Python `pat in s` for strings. -/
def strContains (s pat : String) : Bool := subIn pat.data s.data

/-- The rate-limit test of `on_gpt_response` (main.py line 625):
`"API Error (429)" in response`. -/
def rateLimitMarker : String := "API Error (429)"

/-- The three retrieval strategies of the escalation table. -/
inductive Strategy
  | smart
  | aggressive
  | structOnly
deriving DecidableEq, Repr

/-- Escalation level of a strategy (1 = loosest, 3 = strictest). -/
def levelOf : Strategy → Nat
  | .smart => 1
  | .aggressive => 2
  | .structOnly => 3

/-- One model call issued by the machine: a selector ("Brain") call with its
instruction flavour, or a main ("Worker") call with the strategy that built
its context and, for a targeted context, the target list. -/
inductive Call
  | selCall (s : Strategy)
  | mainCall (s : Strategy) (targets : Option (List String))
deriving DecidableEq, Repr

/-- Control point of the query flow: which callback the machine is waiting
for, or how it came to rest. -/
inductive Phase
  | awaitingFilter (aggressive : Bool)
  | awaitingMain
  | idle
  | failed
  | crashed
  | buildError
deriving DecidableEq, Repr

/-- The mutable query state: `self.current_query_attempt`, the control
point, and the ask-button flag. -/
structure AppState where
  attempt : Nat
  phase : Phase
  askEnabled : Bool
deriving DecidableEq, Repr

/-- One scripted response: a selector reply (as its `json.loads` outcome) or
a main-model reply text. -/
inductive Resp
  | fromFilter (r : Option Json)
  | fromMain (r : String)

/-- The dispatcher `execute_smart_query_step` (main.py lines 520-545):
attempt 1 runs the smart filter, attempt 2 the aggressive filter, attempt 3
sends the stored structure-only context straight to the worker, and any
greater attempt reports failure, re-enables the button, and issues no call. -/
def executeStep (s : AppState) : AppState × List Call :=
  if s.attempt = 1 then
    ({ s with phase := .awaitingFilter false }, [.selCall .smart])
  else if s.attempt = 2 then
    ({ s with phase := .awaitingFilter true }, [.selCall .aggressive])
  else if s.attempt = 3 then
    ({ s with phase := .awaitingMain }, [.mainCall .structOnly none])
  else
    ({ s with phase := .failed, askEnabled := true }, [])

/-- The callback `on_filter_response` (main.py lines 574-604).  On a parse
failure the handler sends the stored structure-only context to the worker
without touching the attempt counter.  On success, the handler first
interpolates `', '.join(relevant_files[:3])` into a status message — which
raises an uncaught `TypeError` if any of the first three elements is not a
string (`crashed`) — then builds the targeted context, whose target
normalization raises on a later non-string element; that exception is
caught and reported (`buildError`). -/
def stepFilter (s : AppState) (aggr : Bool) (r : Option Json) :
    AppState × List Call :=
  match parseRelevantFiles r with
  | none => ({ s with phase := .awaitingMain }, [.mainCall .structOnly none])
  | some xs =>
    if ((xs.take 3).all Json.isStr) = false then
      ({ s with phase := .crashed }, [])
    else
      match asStrings xs with
      | some ts =>
        ({ s with phase := .awaitingMain },
         [.mainCall (if aggr then .aggressive else .smart) (some ts)])
      | none => ({ s with phase := .buildError, askEnabled := true }, [])

/-- The callback `on_gpt_response` (main.py lines 620-642): a reply
containing the rate-limit marker increments the attempt counter and
re-enters the dispatcher; otherwise the reply is accepted and the button
re-enabled. -/
def stepMain (s : AppState) (r : String) : AppState × List Call :=
  if strContains r rateLimitMarker then
    executeStep { s with attempt := s.attempt + 1 }
  else
    ({ s with phase := .idle, askEnabled := true }, [])

/-- Delivery of one response: only the callback the machine is waiting for
can fire; responses in any other phase have no registered worker and are
dropped. -/
def step (s : AppState) (resp : Resp) : AppState × List Call :=
  match s.phase, resp with
  | .awaitingFilter aggr, .fromFilter r => stepFilter s aggr r
  | .awaitingMain, .fromMain r => stepMain s r
  | _, _ => (s, [])

/-- Runs a script of responses from a state, accumulating issued calls. -/
def runFrom (s : AppState) : List Resp → AppState × List Call
  | [] => (s, [])
  | r :: rs =>
    let this := step s r
    let rest := runFrom this.1 rs
    (rest.1, this.2 ++ rest.2)

/-- The start of a query, `ask_gpt` (main.py lines 514-518): the button is
disabled, the attempt counter set to 1, and the dispatcher entered. -/
def startQuery : AppState × List Call :=
  executeStep { attempt := 1, phase := .idle, askEnabled := false }

/-- A whole query: start, then consume the scripted responses. -/
def runQuery (script : List Resp) : AppState × List Call :=
  let s0 := startQuery
  let rest := runFrom s0.1 script
  (rest.1, s0.2 ++ rest.2)

/-- The escalation levels of the main-model calls of a trace, in order. -/
def mainLevels (cs : List Call) : List Nat :=
  cs.filterMap fun c =>
    match c with
    | .mainCall s _ => some (levelOf s)
    | _ => none

/-- Phases from which no further call can ever be issued. -/
def isTerminal : Phase → Bool
  | .awaitingFilter _ => false
  | .awaitingMain => false
  | _ => true

/-- A selector outcome that does not blow up the handler: either the parse
fails, or it yields a list of strings. -/
def goodSel (r : Option Json) : Prop :=
  parseRelevantFiles r = none ∨
  ∃ ts : List String, parseRelevantFiles r = some (ts.map Json.jstr)

/-- A scripted response that parses cleanly (main replies always qualify). -/
def parseOkResp : Resp → Prop
  | .fromFilter r => ∃ ts : List String, parseRelevantFiles r = some (ts.map Json.jstr)
  | .fromMain _ => True

/-- Lower bound on the level of any future main call from a state. -/
def lbOf (s : AppState) : Nat :=
  match s.phase with
  | .awaitingFilter _ => s.attempt
  | .awaitingMain => s.attempt + 1
  | _ => s.attempt

/-- The attempt counter agrees with the pending selector flavour. -/
def invState (s : AppState) : Prop :=
  ∀ a, s.phase = .awaitingFilter a → s.attempt = (if a then 2 else 1)

/-! # Theorems -/

/-! ### Bridge lemmas: the walker outputs are the rendered instrumented lists -/
mutual
theorem walkNode_fst_eq (cfg : ExtractorConfig) (path : String) (ind : Nat)
    (b : Bool) : (n : FSNode) →
    (walkNode cfg path ind b n).1 = (structEntriesN cfg ind n).map renderEntry
  | .file name size body fstats => by
    simp only [walkNode, structEntriesN]
    by_cases h : extKey name ∈ cfg.extensions
    · simp [h, renderEntry]
      cases b
      · simp
      · simp only [if_true]
        split
        · simp
        · simp
    · simp [h]
  | .dir name children => by
    simp only [walkNode, structEntriesN, List.map]
    rw [walkList_fst_eq cfg (path ++ "/" ++ name) (ind + 1) b children]
    simp [renderEntry]

theorem walkList_fst_eq (cfg : ExtractorConfig) (path : String) (ind : Nat)
    (b : Bool) : (ns : FSList) →
    (walkList cfg path ind b ns).1 = (structEntriesL cfg ind ns).map renderEntry
  | .nil => by simp [walkList, structEntriesL]
  | .cons n tl => by
    simp only [walkList, structEntriesL]
    by_cases h : n.name ∈ cfg.exclusions
    · simp [h, walkList_fst_eq cfg path ind b tl]
    · simp [h, walkNode_fst_eq cfg path ind b n, walkList_fst_eq cfg path ind b tl]
end

mutual
theorem walkNode_content_eq (cfg : ExtractorConfig) (path : String) (ind : Nat) :
    (n : FSNode) →
    (walkNode cfg path ind true n).2.1 =
      (contentFilesN cfg path ind n).flatMap renderBlock
  | .file name size body fstats => by
    simp only [walkNode, contentFilesN]
    by_cases h : extKey name ∈ cfg.extensions
    · simp only [h, if_true, if_pos]
      by_cases hs : size > 100 * 1024
      · simp [hs, renderBlock, List.flatMap]
      · simp [hs, renderBlock, List.flatMap]
    · simp [h]
  | .dir name children => by
    simp only [walkNode, contentFilesN]
    exact walkList_content_eq cfg (path ++ "/" ++ name) (ind + 1) children

theorem walkList_content_eq (cfg : ExtractorConfig) (path : String) (ind : Nat) :
    (ns : FSList) →
    (walkList cfg path ind true ns).2.1 =
      (contentFilesL cfg path ind ns).flatMap renderBlock
  | .nil => by simp [walkList, contentFilesL]
  | .cons n tl => by
    simp only [walkList, contentFilesL]
    by_cases h : n.name ∈ cfg.exclusions
    · simp [h, walkList_content_eq cfg path ind tl]
    · simp [h, walkNode_content_eq cfg path ind n, walkList_content_eq cfg path ind tl]
end

/-! ### Exclusion lemmas: nothing the walker touches bears an excluded name -/
mutual
theorem structEntriesN_names (cfg : ExtractorConfig) (ind : Nat) :
    (n : FSNode) → n.name ∉ cfg.exclusions →
    ∀ e ∈ structEntriesN cfg ind n, e.name ∉ cfg.exclusions
  | .file name size body fstats, hn, e, he => by
    simp only [structEntriesN] at he
    split at he
    · simp only [List.mem_singleton] at he
      subst he; exact hn
    · simp at he
  | .dir name children, hn, e, he => by
    simp only [structEntriesN, List.mem_cons] at he
    rcases he with rfl | he
    · exact hn
    · exact structEntriesL_names cfg (ind + 1) children e he

theorem structEntriesL_names (cfg : ExtractorConfig) (ind : Nat) :
    (ns : FSList) → ∀ e ∈ structEntriesL cfg ind ns, e.name ∉ cfg.exclusions
  | .nil, e, he => by simp [structEntriesL] at he
  | .cons n tl, e, he => by
    simp only [structEntriesL] at he
    split at he
    · exact structEntriesL_names cfg ind tl e he
    · rename_i hn
      rcases List.mem_append.mp he with h1 | h2
      · exact structEntriesN_names cfg ind n hn e h1
      · exact structEntriesL_names cfg ind tl e h2
end

mutual
theorem contentFilesN_names (cfg : ExtractorConfig) (path : String) (ind : Nat) :
    (n : FSNode) → n.name ∉ cfg.exclusions →
    ∀ f ∈ contentFilesN cfg path ind n, f.name ∉ cfg.exclusions
  | .file name size body fstats, hn, f, hf => by
    simp only [contentFilesN] at hf
    split at hf
    · simp only [List.mem_singleton] at hf
      subst hf; exact hn
    · simp at hf
  | .dir name children, hn, f, hf => by
    simp only [contentFilesN] at hf
    exact contentFilesL_names cfg (path ++ "/" ++ name) (ind + 1) children f hf

theorem contentFilesL_names (cfg : ExtractorConfig) (path : String) (ind : Nat) :
    (ns : FSList) → ∀ f ∈ contentFilesL cfg path ind ns, f.name ∉ cfg.exclusions
  | .nil, f, hf => by simp [contentFilesL] at hf
  | .cons n tl, f, hf => by
    simp only [contentFilesL] at hf
    split at hf
    · exact contentFilesL_names cfg path ind tl f hf
    · rename_i hn
      rcases List.mem_append.mp hf with h1 | h2
      · exact contentFilesN_names cfg path ind n hn f h1
      · exact contentFilesL_names cfg path ind tl f h2
end

mutual
theorem descendedDirsN_names (cfg : ExtractorConfig) :
    (n : FSNode) → n.name ∉ cfg.exclusions →
    ∀ d ∈ descendedDirsN cfg n, d ∉ cfg.exclusions
  | .file name size body fstats, hn, d, hd => by simp [descendedDirsN] at hd
  | .dir name children, hn, d, hd => by
    simp only [descendedDirsN, List.mem_cons] at hd
    rcases hd with rfl | hd
    · exact hn
    · exact descendedDirsL_names cfg children d hd

theorem descendedDirsL_names (cfg : ExtractorConfig) :
    (ns : FSList) → ∀ d ∈ descendedDirsL cfg ns, d ∉ cfg.exclusions
  | .nil, d, hd => by simp [descendedDirsL] at hd
  | .cons n tl, d, hd => by
    simp only [descendedDirsL] at hd
    split at hd
    · exact descendedDirsL_names cfg tl d hd
    · rename_i hn
      rcases List.mem_append.mp hd with h1 | h2
      · exact descendedDirsN_names cfg n hn d h1
      · exact descendedDirsL_names cfg tl d h2
end

/-! ### Allowlist lemmas: every listed file passed the extension test -/
mutual
theorem structEntriesN_ext (cfg : ExtractorConfig) (ind : Nat) :
    (n : FSNode) → ∀ e ∈ structEntriesN cfg ind n, e.isDir = false →
    extKey e.name ∈ cfg.extensions
  | .file name size body fstats, e, he, hd => by
    simp only [structEntriesN] at he
    split at he
    · rename_i hext
      simp only [List.mem_singleton] at he
      subst he; exact hext
    · simp at he
  | .dir name children, e, he, hd => by
    simp only [structEntriesN, List.mem_cons] at he
    rcases he with rfl | he
    · simp at hd
    · exact structEntriesL_ext cfg (ind + 1) children e he hd

theorem structEntriesL_ext (cfg : ExtractorConfig) (ind : Nat) :
    (ns : FSList) → ∀ e ∈ structEntriesL cfg ind ns, e.isDir = false →
    extKey e.name ∈ cfg.extensions
  | .nil, e, he, hd => by simp [structEntriesL] at he
  | .cons n tl, e, he, hd => by
    simp only [structEntriesL] at he
    split at he
    · exact structEntriesL_ext cfg ind tl e he hd
    · rcases List.mem_append.mp he with h1 | h2
      · exact structEntriesN_ext cfg ind n e h1 hd
      · exact structEntriesL_ext cfg ind tl e h2 hd
end

mutual
theorem contentFilesN_ext (cfg : ExtractorConfig) (path : String) (ind : Nat) :
    (n : FSNode) → ∀ f ∈ contentFilesN cfg path ind n,
    extKey f.name ∈ cfg.extensions
  | .file name size body fstats, f, hf => by
    simp only [contentFilesN] at hf
    split at hf
    · rename_i hext
      simp only [List.mem_singleton] at hf
      subst hf; exact hext
    · simp at hf
  | .dir name children, f, hf => by
    simp only [contentFilesN] at hf
    exact contentFilesL_ext cfg (path ++ "/" ++ name) (ind + 1) children f hf

theorem contentFilesL_ext (cfg : ExtractorConfig) (path : String) (ind : Nat) :
    (ns : FSList) → ∀ f ∈ contentFilesL cfg path ind ns,
    extKey f.name ∈ cfg.extensions
  | .nil, f, hf => by simp [contentFilesL] at hf
  | .cons n tl, f, hf => by
    simp only [contentFilesL] at hf
    split at hf
    · exact contentFilesL_ext cfg path ind tl f hf
    · rcases List.mem_append.mp hf with h1 | h2
      · exact contentFilesN_ext cfg path ind n f h1
      · exact contentFilesL_ext cfg path ind tl f h2
end

/-! ## Shape of `splitext` extensions -/
theorem splitExtAux_head : ∀ (cs : List Char) (pre ext : List Char),
    splitExtAux cs = some (pre, ext) → ∃ r, ext = '.' :: r := by
  intro cs
  induction cs with
  | nil => intro pre ext h; simp [splitExtAux] at h
  | cons c cs ih =>
    intro pre ext h
    cases hs : splitExtAux cs with
    | some pe =>
      obtain ⟨p, e⟩ := pe
      simp only [splitExtAux, hs] at h
      simp only [Option.some.injEq, Prod.mk.injEq] at h
      exact h.2 ▸ ih p e hs
    | none =>
      simp only [splitExtAux, hs] at h
      split at h
      · rename_i hc
        simp only [Option.some.injEq, Prod.mk.injEq] at h
        exact ⟨cs, by rw [← h.2, hc]⟩
      · simp at h

/-- The extension key is either empty or begins with a dot. -/
theorem extKey_shape (name : String) :
    extKey name = "" ∨ ∃ r, (extKey name).data = '.' :: r := by
  unfold extKey splitextExt
  cases h : splitExtAux name.data with
  | none => exact Or.inl rfl
  | some pe =>
    obtain ⟨pre, ext⟩ := pe
    by_cases hp : pre.all (fun c => c = '.')
    · left; simp [hp, pyLower]
    · right
      obtain ⟨r, hr⟩ := splitExtAux_head name.data pre ext h
      refine ⟨r.map Char.toLower, ?_⟩
      simp only [hp, if_neg, Bool.not_eq_true, pyLower]
      have hdot : Char.toLower '.' = '.' := by decide
      simp [hr, hdot]

/-- Allowlist entries that are nonempty and do not begin with a dot are
unreachable by the extension test. -/
theorem extKey_ne_dotless (e : String) (he : e ≠ "")
    (hh : e.data.head? ≠ some '.') : ∀ name, extKey name ≠ e := by
  intro name h
  rcases extKey_shape name with h0 | ⟨r, hr⟩
  · rw [h0] at h; exact he h.symm
  · rw [h] at hr
    exact hh (by rw [hr]; rfl)

/-- A name containing no dot splits with an empty extension. -/
theorem splitExtAux_none_of_noDot : ∀ (cs : List Char),
    (∀ c ∈ cs, c ≠ '.') → splitExtAux cs = none := by
  intro cs
  induction cs with
  | nil => intro _; rfl
  | cons c cs ih =>
    intro h
    simp only [splitExtAux]
    rw [ih (fun x hx => h x (List.mem_cons_of_mem c hx))]
    simp [h c (List.mem_cons_self c cs)]

/-- A name containing no dot has the empty extension key. -/
theorem extKey_of_noDot (name : String) (h : ∀ c ∈ name.data, c ≠ '.') :
    extKey name = "" := by
  unfold extKey splitextExt
  rw [splitExtAux_none_of_noDot name.data h]
  rfl

/-! ## Claim C1: full extraction never touches excluded entries -/
/-- C1: for every directory tree and every effective exclusion set (the fixed
baseline `DEFAULT_EXCLUSIONS` unioned with user additions), a full extraction
never descends into, and never emits a structure or content line for, any
directory or file whose name is in the effective exclusion set.  The first
two conjuncts identify the walker's structure and content outputs with the
rendered instrumented entry lists; the last three say that no listed entry,
no content-extracted file, and no directory descended into bears an excluded
name. -/
theorem full_extraction_never_touches_excluded
    (userAdditions exts : List String) (ns : FSList) (path : String)
    (ind : Nat) (b : Bool) :
    let cfg : ExtractorConfig := ⟨effectiveExclusions userAdditions, exts⟩
    ((walkList cfg path ind b ns).1 = (structEntriesL cfg ind ns).map renderEntry) ∧
    ((walkList cfg path ind true ns).2.1 =
      (contentFilesL cfg path ind ns).flatMap renderBlock) ∧
    (∀ e ∈ structEntriesL cfg ind ns, e.name ∉ effectiveExclusions userAdditions) ∧
    (∀ f ∈ contentFilesL cfg path ind ns, f.name ∉ effectiveExclusions userAdditions) ∧
    (∀ d ∈ descendedDirsL cfg ns, d ∉ effectiveExclusions userAdditions) :=
  ⟨walkList_fst_eq _ path ind b ns, walkList_content_eq _ path ind ns,
   structEntriesL_names _ ind ns, contentFilesL_names _ path ind ns,
   descendedDirsL_names _ ns⟩

/-- Witness for C1 at a concrete tree, exclusion addition and entry. -/
theorem full_extraction_never_touches_excluded_witness :
    ((⟨0, "a.py", false⟩ : StructEntry) ∈
      structEntriesL ⟨effectiveExclusions ["secret"], defaultExtensions⟩ 0 sampleTree) ∧
    (⟨0, "a.py", false⟩ : StructEntry).name ∉ effectiveExclusions ["secret"] :=
  ⟨by decide,
   (full_extraction_never_touches_excluded ["secret"] defaultExtensions
      sampleTree "/proj" 0 true).2.2.1 ⟨0, "a.py", false⟩ (by decide)⟩

/-! ## Claim C7: over-ceiling files are listed, placeholdered, and counted
by byte size only -/
/-- C7: a file whose extension key is allowlisted and whose size exceeds
100 KiB is listed in the structure report, its content entry is the `File:`
header followed by the literal too-large placeholder (its oracle body is
never consulted), and its statistics contribution is exactly its byte size
in the `size` counter with zero in the word, line, character and token
counters (the oracle statistics are never consulted). -/
theorem large_file_listed_placeholder_size_only
    (cfg : ExtractorConfig) (path : String) (ind : Nat)
    (name : String) (size : Nat) (body : String) (fstats : Stats4)
    (hext : extKey name ∈ cfg.extensions) (hsize : size > 100 * 1024) :
    walkNode cfg path ind true (.file name size body fstats) =
      ([indentStr ind ++ name],
       ["\n" ++ indentStr ind ++ "File: " ++ (path ++ "/" ++ name),
        indentStr ind ++ tooLargeMarker],
       ⟨0, 0, 0, 0, size⟩) := by
  simp [walkNode, hext, hsize, Stats.zero]

/-- Witness for C7: a 150 KiB `.py` file with deliberately nonzero oracle
statistics contributes nothing but its byte size. -/
theorem large_file_listed_placeholder_size_only_witness :
    (extKey "big.py" ∈ defaultExtensions ∧ 153600 > 100 * 1024) ∧
    walkNode ⟨DEFAULT_EXCLUSIONS, defaultExtensions⟩ "/proj" 0 true
        (.file "big.py" 153600 "FULL TEXT" ⟨9, 9, 9, 9⟩) =
      (["big.py"], ["\nFile: /proj/big.py", tooLargeMarker], ⟨0, 0, 0, 0, 153600⟩) :=
  ⟨⟨by decide, by decide⟩, by
    have h := large_file_listed_placeholder_size_only
      ⟨DEFAULT_EXCLUSIONS, defaultExtensions⟩ "/proj" 0 "big.py" 153600
      "FULL TEXT" ⟨9, 9, 9, 9⟩ (by decide) (by decide)
    simpa [indentStr] using h⟩

/-! ## Claim C10: extension matching sees only the dotted lower-cased tail -/
/-- C10: extension membership is tested only against the lower-cased
substring starting at the file name's last dot, which always begins with a
dot or is empty; consequently the dotless default-allowlist entries
`Makefile`, `Dockerfile`, `Vagrantfile` and `Procfile` can never match, and
under the default allowlist a file whose name contains no dot is never
listed in the structure report nor content-extracted, in any tree. -/
theorem dotless_allowlist_entries_unreachable :
    (∀ name : String, extKey name = "" ∨ ∃ r, (extKey name).data = '.' :: r) ∧
    (∀ name : String,
      extKey name ≠ "Makefile" ∧ extKey name ≠ "Dockerfile" ∧
      extKey name ≠ "Vagrantfile" ∧ extKey name ≠ "Procfile") ∧
    (∀ (excl : List String) (ns : FSList) (ind : Nat),
      (∀ e ∈ structEntriesL ⟨excl, defaultExtensions⟩ ind ns,
        e.isDir = false → '.' ∈ e.name.data) ∧
      (∀ (path : String) f, f ∈ contentFilesL ⟨excl, defaultExtensions⟩ path ind ns →
        '.' ∈ f.name.data)) := by
  refine ⟨fun name => extKey_shape name, ?_, ?_⟩
  · intro name
    exact ⟨extKey_ne_dotless _ (by decide) (by decide) name,
           extKey_ne_dotless _ (by decide) (by decide) name,
           extKey_ne_dotless _ (by decide) (by decide) name,
           extKey_ne_dotless _ (by decide) (by decide) name⟩
  · intro excl ns ind
    constructor
    · intro e he hd
      by_contra hm
      have hall : ∀ c ∈ e.name.data, c ≠ '.' := fun c hc hEq => hm (hEq ▸ hc)
      have hkey := structEntriesL_ext ⟨excl, defaultExtensions⟩ ind ns e he hd
      rw [extKey_of_noDot e.name hall] at hkey
      have hno : ("" : String) ∉ defaultExtensions := by decide
      exact hno hkey
    · intro path f hf
      by_contra hm
      have hall : ∀ c ∈ f.name.data, c ≠ '.' := fun c hc hEq => hm (hEq ▸ hc)
      have hkey := contentFilesL_ext ⟨excl, defaultExtensions⟩ path ind ns f hf
      rw [extKey_of_noDot f.name hall] at hkey
      have hno : ("" : String) ∉ defaultExtensions := by decide
      exact hno hkey

/-- Witness for C10 at a concrete dotless file name: a tree consisting of a
single `Makefile` produces an empty structure report under the default
allowlist, and the dotless entries are unreachable for the name `Makefile`. -/
theorem dotless_allowlist_entries_unreachable_witness :
    extKey "Makefile" ≠ "Makefile" ∧
    structEntriesL ⟨DEFAULT_EXCLUSIONS, defaultExtensions⟩ 0
      (.cons (.file "Makefile" 4 "all:" ⟨1, 0, 4, 1⟩) .nil) = [] :=
  ⟨(dotless_allowlist_entries_unreachable.2.1 "Makefile").1, by decide⟩

/-! ## Characterization of the targeted content section -/
theorem twalkFiles_eq (cfg : ExtractorConfig) (cts : List String) :
    ∀ (pre : String) (ns : FSList),
    twalkFiles cfg cts pre ns =
      ((allFilesHere cfg pre ns).filter
          (fun f => matchesTarget cts f.rel f.name)).flatMap
        (fun f => ["\nFile: " ++ f.rel, f.body])
  | pre, .nil => rfl
  | pre, .cons (.dir n ch) tl => by
    simp only [twalkFiles, allFilesHere]
    exact twalkFiles_eq cfg cts pre tl
  | pre, .cons (.file n sz b st) tl => by
    simp only [twalkFiles, allFilesHere, List.filter_append, List.flatMap_append]
    rw [twalkFiles_eq cfg cts pre tl]
    congr 1
    by_cases hx : n ∈ cfg.exclusions
    · simp [hx]
    · by_cases hm : matchesTarget cts (relJoin pre n) n
      · simp [hx, hm]
      · simp [hx, hm]

theorem twalkDirs_eq (cfg : ExtractorConfig) (cts : List String) :
    ∀ (pre : String) (ns : FSList),
    twalkDirs cfg cts pre ns =
      ((allFilesDirs cfg pre ns).filter
          (fun f => matchesTarget cts f.rel f.name)).flatMap
        (fun f => ["\nFile: " ++ f.rel, f.body])
  | pre, .nil => rfl
  | pre, .cons (.file n sz b st) tl => by
    simp only [twalkDirs, allFilesDirs]
    exact twalkDirs_eq cfg cts pre tl
  | pre, .cons (.dir n ch) tl => by
    simp only [twalkDirs, allFilesDirs, List.filter_append, List.flatMap_append]
    rw [twalkDirs_eq cfg cts pre tl]
    congr 1
    by_cases hx : n ∈ cfg.exclusions
    · simp [hx]
    · simp only [hx, if_neg, List.filter_append, List.flatMap_append]
      rw [twalkFiles_eq cfg cts (relJoin pre n) ch,
          twalkDirs_eq cfg cts (relJoin pre n) ch]
      simp

/-- The targeted content section, as a filter of the walk's file list. -/
theorem targetedContentOutput_eq (cfg : ExtractorConfig) (cts : List String)
    (ns : FSList) :
    targetedContentOutput cfg cts ns =
      ((walkAllFiles cfg ns).filter
          (fun f => matchesTarget cts f.rel f.name)).flatMap
        (fun f => ["\nFile: " ++ f.rel, f.body]) := by
  unfold targetedContentOutput walkAllFiles
  rw [twalkFiles_eq cfg cts "" ns, twalkDirs_eq cfg cts "" ns,
      List.filter_append, List.flatMap_append]

/-! ## Claim C2: targeted extraction extracts exactly the matched files -/
/-- C2: for every tree and target list, the content section of
`build_targeted_context` is exactly the `File:` header and extracted body of
those non-excluded files whose normalized lower-cased relative path or bare
lower-cased name appears among the normalized lower-cased targets — each
body emitted unconditionally, with no size ceiling (the third conjunct holds
with no constraint on `f.size`) — and the structure report it embeds is the
content-free full-tree structure report, which coincides with the structure
report of a content-enabled full extraction. -/
theorem targeted_extraction_exact (userExclusions exts : List String)
    (folderPath : String) (ns : FSList) (targetFiles : List String) :
    let cfg : ExtractorConfig := ⟨effectiveExclusions userExclusions, exts⟩
    let cts := cleanTargets targetFiles
    (∀ b : Bool, (walkList cfg folderPath 0 b ns).1 =
      (getFolderStructureAndContent cfg folderPath ns false).1) ∧
    (targetedContentOutput cfg cts ns =
      ((walkAllFiles cfg ns).filter
          (fun f => matchesTarget cts f.rel f.name)).flatMap
        (fun f => ["\nFile: " ++ f.rel, f.body])) ∧
    (∀ f ∈ walkAllFiles cfg ns, matchesTarget cts f.rel f.name = true →
      f.body ∈ targetedContentOutput cfg cts ns) := by
  intro cfg cts
  refine ⟨?_, targetedContentOutput_eq cfg cts ns, ?_⟩
  · intro b
    show (walkList cfg folderPath 0 b ns).1 = (walkList cfg folderPath 0 false ns).1
    rw [walkList_fst_eq cfg folderPath 0 b ns,
        walkList_fst_eq cfg folderPath 0 false ns]
  · intro f hf hm
    rw [targetedContentOutput_eq cfg cts ns]
    exact List.mem_flatMap.mpr ⟨f, List.mem_filter.mpr ⟨hf, hm⟩, by simp⟩

/-- Witness for C2: in the sample tree, the upper-cased target `A.PY`
selects the file `a.py`, whose body indeed appears in the targeted content
section. -/
theorem targeted_extraction_exact_witness :
    ((⟨"a.py", "a.py", 10, "Content:\nprint(1)", ⟨2, 1, 8, 2⟩⟩ : TFile) ∈
        walkAllFiles ⟨effectiveExclusions [], defaultExtensions⟩ sampleTree ∧
      matchesTarget (cleanTargets ["A.PY"]) "a.py" "a.py" = true) ∧
    "Content:\nprint(1)" ∈
      targetedContentOutput ⟨effectiveExclusions [], defaultExtensions⟩
        (cleanTargets ["A.PY"]) sampleTree :=
  ⟨⟨by decide, by decide⟩,
   (targeted_extraction_exact [] defaultExtensions "/proj" sampleTree
      ["A.PY"]).2.2 ⟨"a.py", "a.py", 10, "Content:\nprint(1)", ⟨2, 1, 8, 2⟩⟩
     (by decide) (by decide)⟩

/-! ## Claim C9: the allowlist is not consulted in targeted mode -/

/-- C9: targeted extraction never consults the extension allowlist: every
non-excluded file of the walk whose normalized relative path or bare name
matches a target contributes its header and extracted body to the content
section, with no condition on its extension; the structure report, by
contrast, only ever lists files whose extension key is allowlisted; hence
(concretely) a matched `.bin` file appears in the targeted content section
while the structure report of the same tree is empty. -/
theorem targeted_ignores_allowlist :
    (∀ (cfg : ExtractorConfig) (cts : List String) (ns : FSList) (f : TFile),
      f ∈ walkAllFiles cfg ns → matchesTarget cts f.rel f.name = true →
      ("\nFile: " ++ f.rel) ∈ targetedContentOutput cfg cts ns ∧
      f.body ∈ targetedContentOutput cfg cts ns) ∧
    (∀ (cfg : ExtractorConfig) (ind : Nat) (ns : FSList) (e : StructEntry),
      e ∈ structEntriesL cfg ind ns → e.isDir = false →
      extKey e.name ∈ cfg.extensions) ∧
    (("\nFile: " ++ "data.bin") ∈
        targetedContentOutput ⟨DEFAULT_EXCLUSIONS, defaultExtensions⟩
          (cleanTargets ["data.bin"]) binTree ∧
      (walkList ⟨DEFAULT_EXCLUSIONS, defaultExtensions⟩ "/proj" 0 true binTree).1 = []) := by
  refine ⟨?_, ?_, by decide, by decide⟩
  · intro cfg cts ns f hf hm
    rw [targetedContentOutput_eq cfg cts ns]
    constructor
    · exact List.mem_flatMap.mpr ⟨f, List.mem_filter.mpr ⟨hf, hm⟩, by simp⟩
    · exact List.mem_flatMap.mpr ⟨f, List.mem_filter.mpr ⟨hf, hm⟩, by simp⟩
  · intro cfg ind ns e he hd
    exact structEntriesL_ext cfg ind ns e he hd

/-- Witness for C9 at the concrete `.bin` file. -/
theorem targeted_ignores_allowlist_witness :
    ((⟨"data.bin", "data.bin", 200000, "BINARY BODY", ⟨2, 0, 11, 2⟩⟩ : TFile) ∈
        walkAllFiles ⟨DEFAULT_EXCLUSIONS, defaultExtensions⟩ binTree) ∧
    "BINARY BODY" ∈
      targetedContentOutput ⟨DEFAULT_EXCLUSIONS, defaultExtensions⟩
        (cleanTargets ["data.bin"]) binTree :=
  ⟨by decide,
   (targeted_ignores_allowlist.1 ⟨DEFAULT_EXCLUSIONS, defaultExtensions⟩
      (cleanTargets ["data.bin"]) binTree
      ⟨"data.bin", "data.bin", 200000, "BINARY BODY", ⟨2, 0, 11, 2⟩⟩
      (by decide) (by decide)).2⟩

/-! ## Claim C8: byte-size humanization -/
/-- Evaluation of the tie-free rounding: when `q * 10` is a natural number
there is nothing to round. -/
theorem roundHalfEvenTenths_eval (k : ℕ) (q : ℚ) (h : q * 10 = (k : ℚ)) :
    roundHalfEvenTenths q = (k : ℤ) := by
  unfold roundHalfEvenTenths
  rw [h, Int.floor_natCast]
  have hzero : (k : ℚ) - ((k : ℤ) : ℚ) = 0 := by push_cast; ring
  rw [hzero, if_pos (by norm_num : (0 : ℚ) < 1 / 2)]

/-- Evaluation of the one-decimal formatter at exact tenths. -/
theorem formatFixed1_eval (k : ℕ) (q : ℚ) (h : q * 10 = (k : ℚ)) :
    formatFixed1 q = toString (k / 10) ++ "." ++ toString (k % 10) := by
  simp only [formatFixed1]
  rw [roundHalfEvenTenths_eval k q h, Int.toNat_natCast]

/-- Branch structure of `human_readable_size`: successive division by 1024
through the units B, KB, MB, GB, TB, PB with one decimal place. -/
theorem hrs_branches (q : ℚ) :
    (q < 1024 → human_readable_size q = formatF31 q ++ " B") ∧
    (1024 ≤ q → q < 1024 * 1024 →
      human_readable_size q = formatF31 (q / 1024) ++ " KB") ∧
    (1024 * 1024 ≤ q → q < 1024 * 1024 * 1024 →
      human_readable_size q = formatF31 (q / 1024 / 1024) ++ " MB") ∧
    (1024 * 1024 * 1024 ≤ q → q < 1024 * 1024 * 1024 * 1024 →
      human_readable_size q = formatF31 (q / 1024 / 1024 / 1024) ++ " GB") ∧
    (1024 * 1024 * 1024 * 1024 ≤ q → q < 1024 * 1024 * 1024 * 1024 * 1024 →
      human_readable_size q = formatF31 (q / 1024 / 1024 / 1024 / 1024) ++ " TB") ∧
    (1024 * 1024 * 1024 * 1024 * 1024 ≤ q →
      human_readable_size q =
        formatFixed1 (q / 1024 / 1024 / 1024 / 1024 / 1024) ++ " PB") := by
  have h1024 : (0 : ℚ) < 1024 := by norm_num
  have hB : (" " : String) ++ "B" = " B" := by decide
  have hKB : (" " : String) ++ "KB" = " KB" := by decide
  have hMB : (" " : String) ++ "MB" = " MB" := by decide
  have hGB : (" " : String) ++ "GB" = " GB" := by decide
  have hTB : (" " : String) ++ "TB" = " TB" := by decide
  refine ⟨?_, ?_, ?_, ?_, ?_, ?_⟩
  · intro h
    simp only [human_readable_size, hrsLoop, if_pos h, String.append_assoc, hB]
  · intro hlo hhi
    have k0 : ¬ q < 1024 := not_lt.mpr hlo
    have k1 : q / 1024 < 1024 := by rw [div_lt_iff₀ h1024]; linarith
    simp only [human_readable_size, hrsLoop, if_neg k0, if_pos k1,
      String.append_assoc, hKB]
  · intro hlo hhi
    have k0 : ¬ q < 1024 := not_lt.mpr (by nlinarith)
    have k1 : ¬ q / 1024 < 1024 := not_lt.mpr (by rw [le_div_iff₀ h1024]; linarith)
    have k2 : q / 1024 / 1024 < 1024 := by
      rw [div_lt_iff₀ h1024, div_lt_iff₀ h1024]; linarith
    simp only [human_readable_size, hrsLoop, if_neg k0, if_neg k1, if_pos k2,
      String.append_assoc, hMB]
  · intro hlo hhi
    have k0 : ¬ q < 1024 := not_lt.mpr (by nlinarith)
    have k1 : ¬ q / 1024 < 1024 := not_lt.mpr (by rw [le_div_iff₀ h1024]; nlinarith)
    have k2 : ¬ q / 1024 / 1024 < 1024 := not_lt.mpr (by
      rw [le_div_iff₀ h1024, le_div_iff₀ h1024]; linarith)
    have k3 : q / 1024 / 1024 / 1024 < 1024 := by
      rw [div_lt_iff₀ h1024, div_lt_iff₀ h1024, div_lt_iff₀ h1024]; linarith
    simp only [human_readable_size, hrsLoop, if_neg k0, if_neg k1, if_neg k2,
      if_pos k3, String.append_assoc, hGB]
  · intro hlo hhi
    have k0 : ¬ q < 1024 := not_lt.mpr (by nlinarith)
    have k1 : ¬ q / 1024 < 1024 := not_lt.mpr (by rw [le_div_iff₀ h1024]; nlinarith)
    have k2 : ¬ q / 1024 / 1024 < 1024 := not_lt.mpr (by
      rw [le_div_iff₀ h1024, le_div_iff₀ h1024]; nlinarith)
    have k3 : ¬ q / 1024 / 1024 / 1024 < 1024 := not_lt.mpr (by
      rw [le_div_iff₀ h1024, le_div_iff₀ h1024, le_div_iff₀ h1024]; linarith)
    have k4 : q / 1024 / 1024 / 1024 / 1024 < 1024 := by
      rw [div_lt_iff₀ h1024, div_lt_iff₀ h1024, div_lt_iff₀ h1024, div_lt_iff₀ h1024]
      linarith
    simp only [human_readable_size, hrsLoop, if_neg k0, if_neg k1, if_neg k2,
      if_neg k3, if_pos k4, String.append_assoc, hTB]
  · intro hlo
    have k0 : ¬ q < 1024 := not_lt.mpr (by nlinarith)
    have k1 : ¬ q / 1024 < 1024 := not_lt.mpr (by rw [le_div_iff₀ h1024]; nlinarith)
    have k2 : ¬ q / 1024 / 1024 < 1024 := not_lt.mpr (by
      rw [le_div_iff₀ h1024, le_div_iff₀ h1024]; nlinarith)
    have k3 : ¬ q / 1024 / 1024 / 1024 < 1024 := not_lt.mpr (by
      rw [le_div_iff₀ h1024, le_div_iff₀ h1024, le_div_iff₀ h1024]; nlinarith)
    have k4 : ¬ q / 1024 / 1024 / 1024 / 1024 < 1024 := not_lt.mpr (by
      rw [le_div_iff₀ h1024, le_div_iff₀ h1024, le_div_iff₀ h1024, le_div_iff₀ h1024]
      linarith)
    simp only [human_readable_size, hrsLoop, if_neg k0, if_neg k1, if_neg k2,
      if_neg k3, if_neg k4]

/-- C8: `human_readable_size` divides successively by 1024 through the units
B, KB, MB, GB, TB, PB, rendering one decimal place at each stop, and in
particular maps 0 to `"0.0 B"`, 1536 to `"1.5 KB"` and 1048576 to
`"1.0 MB"`. -/
theorem human_readable_size_spec :
    human_readable_size 0 = "0.0 B" ∧
    human_readable_size 1536 = "1.5 KB" ∧
    human_readable_size 1048576 = "1.0 MB" ∧
    ∀ q : ℚ,
      (q < 1024 → human_readable_size q = formatF31 q ++ " B") ∧
      (1024 ≤ q → q < 1024 * 1024 →
        human_readable_size q = formatF31 (q / 1024) ++ " KB") ∧
      (1024 * 1024 ≤ q → q < 1024 * 1024 * 1024 →
        human_readable_size q = formatF31 (q / 1024 / 1024) ++ " MB") ∧
      (1024 * 1024 * 1024 ≤ q → q < 1024 * 1024 * 1024 * 1024 →
        human_readable_size q = formatF31 (q / 1024 / 1024 / 1024) ++ " GB") ∧
      (1024 * 1024 * 1024 * 1024 ≤ q → q < 1024 * 1024 * 1024 * 1024 * 1024 →
        human_readable_size q = formatF31 (q / 1024 / 1024 / 1024 / 1024) ++ " TB") ∧
      (1024 * 1024 * 1024 * 1024 * 1024 ≤ q →
        human_readable_size q =
          formatFixed1 (q / 1024 / 1024 / 1024 / 1024 / 1024) ++ " PB") := by
  have f0 : formatF31 0 = "0.0" := by
    simp only [formatF31]
    rw [formatFixed1_eval 0 0 (by norm_num)]
    decide
  have f15 : formatF31 ((1536 : ℚ) / 1024) = "1.5" := by
    simp only [formatF31]
    rw [formatFixed1_eval 15 _ (by norm_num)]
    decide
  have f10 : formatF31 ((1048576 : ℚ) / 1024 / 1024) = "1.0" := by
    simp only [formatF31]
    rw [formatFixed1_eval 10 _ (by norm_num)]
    decide
  refine ⟨?_, ?_, ?_, hrs_branches⟩
  · rw [(hrs_branches 0).1 (by norm_num), f0]
    decide
  · rw [(hrs_branches 1536).2.1 (by norm_num) (by norm_num), f15]
    decide
  · rw [(hrs_branches 1048576).2.2.1 (by norm_num) (by norm_num), f10]
    decide

/-- Witness for C8: the 1536-byte case goes through the KB branch. -/
theorem human_readable_size_spec_witness :
    ((1024 : ℚ) ≤ 1536 ∧ (1536 : ℚ) < 1024 * 1024) ∧
    human_readable_size 1536 = formatF31 ((1536 : ℚ) / 1024) ++ " KB" :=
  ⟨⟨by norm_num, by norm_num⟩,
   (human_readable_size_spec.2.2.2 1536).2.1 (by norm_num) (by norm_num)⟩

/-! ### Machine lemmas -/
theorem step_terminal (a : Nat) (p : Phase) (e : Bool) (r : Resp)
    (h : isTerminal p = true) : step ⟨a, p, e⟩ r = (⟨a, p, e⟩, []) := by
  cases p
  case awaitingFilter => simp [isTerminal] at h
  case awaitingMain => simp [isTerminal] at h
  all_goals cases r
  all_goals rfl

theorem runFrom_terminal (rs : List Resp) : ∀ (s : AppState),
    isTerminal s.phase = true → runFrom s rs = (s, []) := by
  induction rs with
  | nil => intro s h; rfl
  | cons r rs ih =>
    intro s h
    obtain ⟨a, p, e⟩ := s
    simp only [runFrom, step_terminal a p e r h, ih ⟨a, p, e⟩ h]
    simp

theorem runFrom_append (xs ys : List Resp) : ∀ s : AppState,
    runFrom s (xs ++ ys) =
      ((runFrom (runFrom s xs).1 ys).1,
       (runFrom s xs).2 ++ (runFrom (runFrom s xs).1 ys).2) := by
  induction xs with
  | nil => intro s; simp [runFrom]
  | cons x xs ih =>
    intro s
    simp only [List.cons_append, runFrom, ih]
    simp [ih, List.append_assoc]

theorem asStrings_map (ts : List String) :
    asStrings (ts.map Json.jstr) = some ts := by
  induction ts with
  | nil => rfl
  | cons t ts ih => simp [asStrings, ih]

theorem take_all_isStr (ts : List String) :
    ((ts.map Json.jstr).take 3).all Json.isStr = true := by
  rw [List.all_eq_true]
  intro x hx
  obtain ⟨s, _, rfl⟩ := List.mem_map.mp (List.take_subset _ _ hx)
  rfl

/-! ## Claim C5: a selector parse failure falls straight back to the
structure-only main call -/
/-- C5: when the selector reply fails to parse as a JSON list, the very next
transition issues exactly one call — a main-model call carrying the
structure-only context and no target set — the attempt counter is unchanged,
and no selector call is issued. -/
theorem parse_failure_structure_only_fallback (s : AppState) (aggr : Bool)
    (r : Option Json) (hp : s.phase = .awaitingFilter aggr)
    (hr : parseRelevantFiles r = none) :
    step s (.fromFilter r) =
      ({ s with phase := .awaitingMain }, [.mainCall .structOnly none]) ∧
    (step s (.fromFilter r)).1.attempt = s.attempt ∧
    (step s (.fromFilter r)).2 = [.mainCall .structOnly none] := by
  obtain ⟨a, p, e⟩ := s
  cases hp
  refine ⟨?_, ?_, ?_⟩
  all_goals simp [step, stepFilter, hr]

/-- Witness for C5: a reply whose cleaned text is not JSON (for example
`"I cannot help."`, whose `json.loads` raises) produces the structure-only
main call at unchanged attempt 1. -/
theorem parse_failure_structure_only_fallback_witness :
    step ⟨1, .awaitingFilter false, false⟩ (.fromFilter none) =
      (⟨1, .awaitingMain, false⟩, [.mainCall .structOnly none]) ∧
    (step ⟨1, .awaitingFilter false, false⟩ (.fromFilter none)).1.attempt = 1 :=
  ⟨(parse_failure_structure_only_fallback ⟨1, .awaitingFilter false, false⟩
      false none rfl rfl).1,
   (parse_failure_structure_only_fallback ⟨1, .awaitingFilter false, false⟩
      false none rfl rfl).2.1⟩

/-! ## Claim C6: the parse accepts any JSON list, not only lists of strings -/
/-- Counterexample to C6 as stated: the reply `[1, 2]` deserializes to a
JSON list whose elements are not strings, yet parsing succeeds (no parse
error, no fallback): the code checks only `isinstance(relevant_files, list)`. -/
theorem selector_parse_accepts_nonstring_list :
    parseRelevantFiles (some (Json.jarr [Json.jnum 1, Json.jnum 2])) =
      some [Json.jnum 1, Json.jnum 2] := rfl

/-- C6 as amended: parsing succeeds exactly when the reply deserializes to a
JSON list, of any element types; every other JSON shape, and a parse
exception, yields a parse error and triggers the structure-only fallback.
(A list containing non-strings is accepted by the parse and fails later,
outside the parser.) -/
theorem selector_parse_list_only (s : AppState) (aggr : Bool)
    (r : Option Json) (hp : s.phase = .awaitingFilter aggr) :
    (∀ xs, r = some (Json.jarr xs) → parseRelevantFiles r = some xs) ∧
    ((∀ xs, r ≠ some (Json.jarr xs)) →
      parseRelevantFiles r = none ∧
      step s (.fromFilter r) =
        ({ s with phase := .awaitingMain }, [.mainCall .structOnly none])) := by
  constructor
  · intro xs h
    rw [h]
    rfl
  · intro hne
    have hnone : parseRelevantFiles r = none := by
      cases r with
      | none => rfl
      | some v =>
        cases v with
        | jarr xs => exact absurd rfl (hne xs)
        | null => rfl
        | jbool b => rfl
        | jnum n => rfl
        | jstr t => rfl
        | jobj fs => rfl
    exact ⟨hnone,
      (parse_failure_structure_only_fallback s aggr r hp hnone).1⟩

/-- Witness for C6 (amended) at the non-list reply `7`. -/
theorem selector_parse_list_only_witness :
    parseRelevantFiles (some (Json.jnum 7)) = none ∧
    step ⟨1, .awaitingFilter false, false⟩ (.fromFilter (some (Json.jnum 7))) =
      (⟨1, .awaitingMain, false⟩, [.mainCall .structOnly none]) :=
  (selector_parse_list_only ⟨1, .awaitingFilter false, false⟩ false
    (some (Json.jnum 7)) rfl).2
    (fun _ h => Json.noConfusion (Option.some.inj h))

/-! ## Claim C3: three rate-limited attempts are terminal -/
/-- C3: whenever the main-model replies of attempts 1, 2 and 3 all contain
the rate-limit marker (whether each selector reply parsed or fell back), the
machine ends in the terminal `failed` state, exactly three main-model calls
were issued, and no further call of any kind — selector or main — is ever
issued, whatever responses follow. -/
theorem three_rate_limits_terminal_no_fourth_call
    (r1 r2 : Option Json) (m1 m2 m3 : String) (rest : List Resp)
    (h1 : goodSel r1) (h2 : goodSel r2)
    (hm1 : strContains m1 rateLimitMarker = true)
    (hm2 : strContains m2 rateLimitMarker = true)
    (hm3 : strContains m3 rateLimitMarker = true) :
    (runQuery [.fromFilter r1, .fromMain m1, .fromFilter r2, .fromMain m2,
      .fromMain m3]).1.phase = .failed ∧
    (mainLevels (runQuery [.fromFilter r1, .fromMain m1, .fromFilter r2,
      .fromMain m2, .fromMain m3]).2).length = 3 ∧
    runQuery ([.fromFilter r1, .fromMain m1, .fromFilter r2, .fromMain m2,
      .fromMain m3] ++ rest) =
      runQuery [.fromFilter r1, .fromMain m1, .fromFilter r2, .fromMain m2,
        .fromMain m3] := by
  rcases h1 with hp1 | ⟨ts1, hp1⟩ <;> rcases h2 with hp2 | ⟨ts2, hp2⟩ <;>
    refine ⟨?_, ?_, ?_⟩ <;>
    simp [runQuery, startQuery, runFrom, runFrom_append, runFrom_terminal,
      step, stepFilter, stepMain, executeStep, hp1, hp2, hm1, hm2, hm3,
      asStrings_map, take_all_isStr, mainLevels, levelOf, isTerminal]

/-- Witness for C3: two parse failures and three marker replies. -/
theorem three_rate_limits_terminal_no_fourth_call_witness :
    (runQuery [.fromFilter none, .fromMain "API Error (429): slow down",
      .fromFilter none, .fromMain "API Error (429)!",
      .fromMain "API Error (429) again"]).1.phase = .failed ∧
    (mainLevels (runQuery [.fromFilter none, .fromMain "API Error (429): slow down",
      .fromFilter none, .fromMain "API Error (429)!",
      .fromMain "API Error (429) again"]).2).length = 3 ∧
    runQuery ([.fromFilter none, .fromMain "API Error (429): slow down",
      .fromFilter none, .fromMain "API Error (429)!",
      .fromMain "API Error (429) again"] ++ [.fromMain "late reply"]) =
      runQuery [.fromFilter none, .fromMain "API Error (429): slow down",
        .fromFilter none, .fromMain "API Error (429)!",
        .fromMain "API Error (429) again"] :=
  three_rate_limits_terminal_no_fourth_call none none
    "API Error (429): slow down" "API Error (429)!" "API Error (429) again"
    [.fromMain "late reply"] (Or.inl rfl) (Or.inl rfl)
    (by decide) (by decide) (by decide)

/-! ## Claim C4: strategy monotonicity -/
theorem mainLevels_append (xs ys : List Call) :
    mainLevels (xs ++ ys) = mainLevels xs ++ mainLevels ys := by
  simp [mainLevels, List.filterMap_append]

/-- Counterexample to C4 as stated: a parse failure at attempt 1 sends the
structure-only context (level 3); its rate-limited reply escalates to
attempt 2, which runs the aggressive filter (level 2) — a strictly looser
strategy after a stricter one.  The executed main-call level sequence is
`[3, 2]`, which is not strictly increasing. -/
theorem escalation_monotonicity_cex :
    mainLevels (runQuery [.fromFilter none, .fromMain "API Error (429)",
      .fromFilter (some (Json.jarr [Json.jstr "a.py"]))]).2 = [3, 2] ∧
    ¬ List.Pairwise (fun a b => a < b)
      (mainLevels (runQuery [.fromFilter none, .fromMain "API Error (429)",
        .fromFilter (some (Json.jarr [Json.jstr "a.py"]))]).2) := by
  have h : mainLevels (runQuery [.fromFilter none, .fromMain "API Error (429)",
      .fromFilter (some (Json.jarr [Json.jstr "a.py"]))]).2 = [3, 2] := by decide
  refine ⟨h, ?_⟩
  rw [h]
  simp [List.pairwise_cons]

/-- Invariant argument: from a state whose pending-selector flavour agrees
with its attempt counter, a script whose selector replies all parse to
string lists produces a strictly increasing main-call level sequence, all of
it at or above the state's lower bound. -/
theorem monotone_invariant (rs : List Resp) : ∀ (s : AppState),
    invState s → (∀ x ∈ rs, parseOkResp x) →
    List.Pairwise (fun a b => a < b) (mainLevels (runFrom s rs).2) ∧
    ∀ l ∈ mainLevels (runFrom s rs).2, lbOf s ≤ l := by
  induction rs with
  | nil =>
    intro s _ _
    exact ⟨List.Pairwise.nil, by simp [runFrom, mainLevels]⟩
  | cons r rs ih =>
    intro s hinv hok
    have hokr : parseOkResp r := hok r (List.mem_cons_self r rs)
    have hoktl : ∀ x ∈ rs, parseOkResp x :=
      fun x hx => hok x (List.mem_cons_of_mem r hx)
    obtain ⟨a, p, e⟩ := s
    cases p with
    | awaitingFilter aggr =>
      cases r with
      | fromMain m =>
        have hstep : step ⟨a, .awaitingFilter aggr, e⟩ (.fromMain m) =
            (⟨a, .awaitingFilter aggr, e⟩, []) := rfl
        simp only [runFrom, hstep]
        simpa using ih ⟨a, .awaitingFilter aggr, e⟩ hinv hoktl
      | fromFilter rj =>
        obtain ⟨ts, hts⟩ := hokr
        have ha : a = (if aggr then 2 else 1) := hinv aggr rfl
        have hstep : step ⟨a, .awaitingFilter aggr, e⟩ (.fromFilter rj) =
            (⟨a, .awaitingMain, e⟩,
             [.mainCall (if aggr then .aggressive else .smart) (some ts)]) := by
          simp [step, stepFilter, hts, take_all_isStr, asStrings_map]
        simp only [runFrom, hstep]
        have hrec := ih ⟨a, .awaitingMain, e⟩ (fun b hb => by cases hb) hoktl
        have hlb : lbOf ⟨a, .awaitingMain, e⟩ = a + 1 := rfl
        rw [hlb] at hrec
        have hlvl : levelOf (if aggr then .aggressive else .smart) = a := by
          cases aggr <;> simp_all [levelOf]
        constructor
        · simp only [mainLevels_append]
          have : mainLevels [Call.mainCall (if aggr then .aggressive else .smart)
              (some ts)] = [a] := by rw [← hlvl]; rfl
          rw [this]
          refine List.pairwise_cons.mpr ⟨?_, hrec.1⟩
          intro b hb
          have := hrec.2 b hb
          omega
        · simp only [mainLevels_append]
          intro l hl
          have : mainLevels [Call.mainCall (if aggr then .aggressive else .smart)
              (some ts)] = [a] := by rw [← hlvl]; rfl
          rw [this] at hl
          rcases List.mem_append.mp hl with h1 | h2
          · simp only [List.mem_singleton] at h1
            subst h1
            simp [lbOf]
          · have := hrec.2 l h2
            simp only [lbOf]
            omega
    | awaitingMain =>
      cases r with
      | fromFilter rj =>
        have hstep : step ⟨a, .awaitingMain, e⟩ (.fromFilter rj) =
            (⟨a, .awaitingMain, e⟩, []) := rfl
        simp only [runFrom, hstep]
        simpa using ih ⟨a, .awaitingMain, e⟩ hinv hoktl
      | fromMain m =>
        by_cases hm : strContains m rateLimitMarker = true
        · have hstep : step ⟨a, .awaitingMain, e⟩ (.fromMain m) =
              executeStep ⟨a + 1, .awaitingMain, e⟩ := by
            simp [step, stepMain, hm]
          by_cases h1 : a + 1 = 1
          · have hex : executeStep ⟨a + 1, .awaitingMain, e⟩ =
                (⟨a + 1, .awaitingFilter false, e⟩, [.selCall .smart]) := by
              simp [executeStep, h1]
            simp only [runFrom, hstep, hex]
            have hrec := ih ⟨a + 1, .awaitingFilter false, e⟩
              (fun b hb => by cases hb; simpa using h1) hoktl
            constructor
            · simpa [mainLevels_append, mainLevels] using hrec.1
            · intro l hl
              simp only [mainLevels_append] at hl
              have hl2 : l ∈ mainLevels (runFrom ⟨a + 1, .awaitingFilter false, e⟩ rs).2 := by
                simpa [mainLevels] using hl
              have := hrec.2 l hl2
              simp only [lbOf] at this ⊢
              omega
          · by_cases h2 : a + 1 = 2
            · have hex : executeStep ⟨a + 1, .awaitingMain, e⟩ =
                  (⟨a + 1, .awaitingFilter true, e⟩, [.selCall .aggressive]) := by
                simp [executeStep, h1, h2]
              simp only [runFrom, hstep, hex]
              have hrec := ih ⟨a + 1, .awaitingFilter true, e⟩
                (fun b hb => by cases hb; simpa using h2) hoktl
              constructor
              · simpa [mainLevels_append, mainLevels] using hrec.1
              · intro l hl
                simp only [mainLevels_append] at hl
                have hl2 : l ∈ mainLevels (runFrom ⟨a + 1, .awaitingFilter true, e⟩ rs).2 := by
                  simpa [mainLevels] using hl
                have := hrec.2 l hl2
                simp only [lbOf] at this ⊢
                omega
            · by_cases h3 : a + 1 = 3
              · have hex : executeStep ⟨a + 1, .awaitingMain, e⟩ =
                    (⟨a + 1, .awaitingMain, e⟩, [.mainCall .structOnly none]) := by
                  simp [executeStep, h1, h2, h3]
                simp only [runFrom, hstep, hex]
                have hrec := ih ⟨a + 1, .awaitingMain, e⟩ (fun b hb => by cases hb) hoktl
                have hlvls : mainLevels [Call.mainCall .structOnly none] = [3] := rfl
                constructor
                · simp only [mainLevels_append, hlvls]
                  refine List.pairwise_cons.mpr ⟨?_, hrec.1⟩
                  intro b hb
                  have := hrec.2 b hb
                  simp only [lbOf] at this
                  omega
                · intro l hl
                  simp only [mainLevels_append, hlvls] at hl
                  rcases List.mem_append.mp hl with hh | hh
                  · simp only [List.mem_singleton] at hh
                    subst hh
                    simp only [lbOf]
                    omega
                  · have := hrec.2 l hh
                    simp only [lbOf] at this ⊢
                    omega
              · have hex : executeStep ⟨a + 1, .awaitingMain, e⟩ =
                    (⟨a + 1, .failed, true⟩, []) := by
                  simp [executeStep, h1, h2, h3]
                simp only [runFrom, hstep, hex]
                rw [runFrom_terminal rs ⟨a + 1, .failed, true⟩ rfl]
                simp [mainLevels]
        · have hstep : step ⟨a, .awaitingMain, e⟩ (.fromMain m) =
              (⟨a, .idle, true⟩, []) := by
            simp [step, stepMain, hm]
          simp only [runFrom, hstep]
          rw [runFrom_terminal rs ⟨a, .idle, true⟩ rfl]
          simp [mainLevels]
    | idle =>
      rw [runFrom_terminal (r :: rs) ⟨a, .idle, e⟩ rfl]
      simp [mainLevels]
    | failed =>
      rw [runFrom_terminal (r :: rs) ⟨a, .failed, e⟩ rfl]
      simp [mainLevels]
    | crashed =>
      rw [runFrom_terminal (r :: rs) ⟨a, .crashed, e⟩ rfl]
      simp [mainLevels]
    | buildError =>
      rw [runFrom_terminal (r :: rs) ⟨a, .buildError, e⟩ rfl]
      simp [mainLevels]

/-- C4 as amended: on every query in which each selector reply parses to a
JSON list of strings (so the parse-failure fallback never fires), the
executed main-call strategy levels are strictly increasing — no looser
strategy after a stricter one, and no level twice.  On the parse-failure
path the code violates the original claim (see the counterexample): the
structure-only fallback runs at attempt 1 and a subsequent rate limit
re-enters the table at attempt 2, a looser strategy. -/
theorem escalation_monotonic_when_selector_parses (script : List Resp)
    (h : ∀ x ∈ script, parseOkResp x) :
    List.Pairwise (fun a b => a < b) (mainLevels (runQuery script).2) := by
  have hq : runQuery script =
      ((runFrom ⟨1, .awaitingFilter false, false⟩ script).1,
       Call.selCall .smart :: (runFrom ⟨1, .awaitingFilter false, false⟩ script).2) := rfl
  rw [hq]
  have hinv : invState ⟨1, .awaitingFilter false, false⟩ := by
    intro b hb
    cases hb
    rfl
  have hmain := (monotone_invariant script ⟨1, .awaitingFilter false, false⟩ hinv h).1
  simpa [mainLevels] using hmain

/-- Witness for the amended C4 on a concrete all-parsing script that
escalates once: levels 1 then 2. -/
theorem escalation_monotonic_when_selector_parses_witness :
    List.Pairwise (fun a b => a < b)
      (mainLevels (runQuery [.fromFilter (some (Json.jarr [Json.jstr "a.py"])),
        .fromMain "API Error (429): retry", .fromFilter (some (Json.jarr [])),
        .fromMain "here is the answer"]).2) :=
  escalation_monotonic_when_selector_parses _ (by
    intro x hx
    simp only [List.mem_cons, List.not_mem_nil, or_false] at hx
    rcases hx with rfl | rfl | rfl | rfl
    · exact ⟨["a.py"], rfl⟩
    · trivial
    · exact ⟨[], rfl⟩
    · trivial)
